import Mathlib

/-!
# LazyFox CLI `init` command — shallow embedding and verification

This file embeds the `init` command of the LazyFox CLI
(`src/cli/commands/init.py`) and proves properties of version resolution,
download/extraction, and the conflict-safe tree copy.

Modelling conventions:
* JSON values returned by the GitHub API are modelled by `JValue`; Python
  `None` is `JValue.null` and Python truthiness is `truthyV`.
* The network is a pure function from URL to response (`Net` for metadata
  requests, `Dl` for the archive download).  `_api_get` / `_download_file`
  turn error responses into the same `RuntimeError` messages the Python
  code builds.
* The filesystem is an association list from relative paths (lists of
  components) to nodes (`FS`).  OS-level I/O failures (permission errors,
  a file occupying a path that must become a directory, malformed zip
  data, …) raise unhandled exceptions in the Python code and are outside
  the model: every modelled filesystem primitive succeeds.
  `shutil.copy2` onto an existing directory does *not* raise — it copies
  the file into that directory — and `FS.copy2` models that redirect.
* `print` calls and the `dest.mkdir` call are recorded as events so that
  ordering claims ("before resolution", "no download attempted") are
  expressible.
-/

set_option autoImplicit false

namespace LazyFox

/-- A JSON value as produced by `json.load` in `_api_get`; `null` also
stands for Python `None`. -/
inductive JValue where
  | null
  | bool (b : Bool)
  | num (n : Int)
  | str (s : String)
  | arr (xs : List JValue)
  | obj (fields : List (String × JValue))

instance : Inhabited JValue := ⟨.null⟩

/-- Python truthiness of a value (`if x:`). -/
def truthyV : JValue → Bool
  | .null => false
  | .bool b => b
  | .num n => n != 0
  | .str s => s != ""
  | .arr xs => !xs.isEmpty
  | .obj fields => !fields.isEmpty

/-- First binding of a key in an association list, `JValue.null` when the
key is absent (Python `dict.get`'s default of `None`). -/
def lookupField : List (String × JValue) → String → JValue
  | [], _ => .null
  | (k', v) :: rest, k => if k' = k then v else lookupField rest k

/-- Python `value.get(key)` on a decoded JSON value.  The source only
calls `.get` after `isinstance(..., dict)` checks or on list items that
are dicts in practice; calling `.get` on a non-dict would raise an
unhandled `AttributeError` in Python, which is outside the model. -/
def jGet (v : JValue) (k : String) : JValue :=
  match v with
  | .obj fields => lookupField fields k
  | _ => .null

/-- The Python dicts built by `_resolve_source` and consumed by `run`. -/
abbrev Dict := List (String × JValue)

/-- `source.get(key)` (default `None`) on a resolver result. -/
def dictGet (d : Dict) (k : String) : JValue := lookupField d k

/-- `source.get(key, default)` on a resolver result. -/
def dictGetD (d : Dict) (k : String) (dflt : JValue) : JValue :=
  match d with
  | [] => dflt
  | (k', v) :: rest => if k' = k then v else dictGetD rest k dflt

/-- Python `a or b` for JSON values. -/
def pyOr (a b : JValue) : JValue := if truthyV a then a else b

/-- Python `value == s` where `s` is a `str`: true exactly for an equal
string (no other built-in JSON value compares equal to a `str`). -/
def pyEqStr (v : JValue) (s : String) : Bool :=
  match v with
  | .str s' => s' == s
  | _ => false

/-- `isinstance(v, dict)`. -/
def isObj : JValue → Bool
  | .obj _ => true
  | _ => false

/-- Python `str()` rendering.  Exact for the scalar values that actually
occur in the interpolated f-strings of the source; container rendering
is approximate (`repr`-based quoting is not reproduced) and no claim
depends on it. -/
def pyStr : JValue → String
  | .null => "None"
  | .bool true => "True"
  | .bool false => "False"
  | .num n => toString n
  | .str s => s
  | .arr _ => "<list>"
  | .obj _ => "<dict>"

/-- Whether `pat` occurs as a contiguous substring of `l`
(Python `pat in s` on strings). -/
def hasSubstr (pat : List Char) : List Char → Bool
  | [] => pat.isPrefixOf []
  | c :: rest => pat.isPrefixOf (c :: rest) || hasSubstr pat rest

/-- Python `pat in s` for strings. -/
def pyIn (pat s : String) : Bool := hasSubstr pat.toList s.toList

/-- Python `s.startswith(pre)`. -/
def pyStartsWith (s pre : String) : Bool := pre.toList.isPrefixOf s.toList

/-- Python `s.endswith(suf)`. -/
def pyEndsWith (s suf : String) : Bool := suf.toList.isSuffixOf s.toList

/-- Helper for `splitSlash`: split the remaining characters at `/`,
`acc` holding the reversed current component. -/
def splitSlashAux (acc : List Char) : List Char → List String
  | [] => [String.mk acc.reverse]
  | c :: rest =>
    if c = '/' then String.mk acc.reverse :: splitSlashAux [] rest
    else splitSlashAux (c :: acc) rest

/-- Python `s.split("/")`. -/
def splitSlash (s : String) : List String := splitSlashAux [] s.toList

/-- Drop the final character of a string (used on a zip directory name
ending in `/`). -/
def dropLastChar (s : String) : String := String.mk s.toList.dropLast

/-! ## Network model and `_api_get` -/

/-- Outcome of `urllib.request.urlopen` plus `json.load` for a metadata
request. -/
inductive HttpResult where
  | ok (v : JValue)
  | httpError (code : Nat) (body : String)
  | urlError (reason : String)

/-- The remote API: a response for every URL. -/
abbrev Net := String → HttpResult

/-- `_api_get`: returns the decoded JSON or raises `RuntimeError` with
exactly the message the source builds (`f"HTTP {exc.code}: {body}"` for
`HTTPError`, `str(exc.reason)` for `URLError`). -/
def apiGet (net : Net) (url : String) : Except String JValue :=
  match net url with
  | .ok v => .ok v
  | .httpError code body => .error ("HTTP " ++ toString code ++ ": " ++ body)
  | .urlError reason => .error reason

def REPO : String := "AmethystDev-Labs/LazyFox"
def API_BASE : String := "https://api.github.com/repos/" ++ REPO
def REPO_URL : String := "https://github.com/" ++ REPO

def urlLatest : String := API_BASE ++ "/releases/latest"
def urlTags1 : String := API_BASE ++ "/tags?per_page=1"
def urlReleaseTag (version : String) : String := API_BASE ++ "/releases/tags/" ++ version
def urlTags100 : String := API_BASE ++ "/tags?per_page=100"

/-! ## `_resolve_source`

Each resolver function also returns the list of metadata URLs it
requested, in order, so that "no further network calls" claims are
expressible. -/

/-- `_default_branch_source`. -/
def defaultBranchSource (net : Net) : Except String Dict × List String :=
  match apiGet net API_BASE with
  | .error e => (.error e, [API_BASE])
  | .ok repo =>
    if isObj repo then
      let branch := jGet repo "default_branch"
      if truthyV branch then
        (.ok [("source_type", .str ("default branch (" ++ pyStr branch ++ ")")),
              ("tag_name", branch),
              ("zipball_url",
               .str (REPO_URL ++ "/archive/refs/heads/" ++ pyStr branch ++ ".zip"))],
         [API_BASE])
      else
        (.error "仓库没有默认分支信息。", [API_BASE])
    else
      (.error "仓库信息格式异常。", [API_BASE])

/-- Outcome of the guarded `releases/...` request at the top of either
branch of `_resolve_source`: `some r` when the `try` block returns or an
error escapes it, `none` when control falls through to the tag lookup
(release lacking a usable `zipball_url`, or a caught `RuntimeError`
whose text contains `"HTTP 404"`). -/
def releaseStep (net : Net) (url : String) (sourceType fallbackTag : String) :
    Option (Except String Dict) :=
  match apiGet net url with
  | .ok release =>
    if isObj release && truthyV (jGet release "zipball_url") then
      some (.ok [("source_type", .str sourceType),
                 ("tag_name", pyOr (jGet release "tag_name") (.str fallbackTag)),
                 ("zipball_url", jGet release "zipball_url")])
    else
      none
  | .error msg =>
    if pyIn "HTTP 404" msg then none else some (.error msg)

/-- `_resolve_source`, together with the ordered list of metadata URLs it
requested. -/
def resolveSource (net : Net) (version : String) : Except String Dict × List String :=
  if version = "latest" then
    match releaseStep net urlLatest "latest release" "latest" with
    | some r => (r, [urlLatest])
    | none =>
      match apiGet net urlTags1 with
      | .error e => (.error e, [urlLatest, urlTags1])
      | .ok tags =>
        match tags with
        | .arr (first :: _) =>
          (.ok [("source_type", .str "latest tag"),
                ("tag_name", pyOr (jGet first "name") (.str "latest-tag")),
                ("zipball_url", jGet first "zipball_url")],
           [urlLatest, urlTags1])
        | _ =>
          let (r, t) := defaultBranchSource net
          (r, [urlLatest, urlTags1] ++ t)
  else
    match releaseStep net (urlReleaseTag version) "release tag" version with
    | some r => (r, [urlReleaseTag version])
    | none =>
      match apiGet net urlTags100 with
      | .error e => (.error e, [urlReleaseTag version, urlTags100])
      | .ok tags =>
        let found : Option JValue :=
          match tags with
          | .arr items => items.find? (fun item => pyEqStr (jGet item "name") version)
          | _ => none
        match found with
        | some item =>
          (.ok [("source_type", .str "git tag"),
                ("tag_name", .str version),
                ("zipball_url", jGet item "zipball_url")],
           [urlReleaseTag version, urlTags100])
        | none =>
          (.error ("未找到版本 `" ++ version ++ "` 的 release 或 tag。"),
           [urlReleaseTag version, urlTags100])

/-! ## Filesystem model -/

/-- A relative path, as a list of components. -/
abbrev Path := List String

/-- A filesystem object. -/
inductive Node where
  | file (content : String)
  | dir
deriving DecidableEq

/-- A directory tree: an association list from relative paths to nodes;
the first binding for a path wins. -/
abbrev FS := List (Path × Node)

/-- The node at `p`, if any (`Path.exists` is `(fs.get p).isSome`). -/
def FS.get (fs : FS) (p : Path) : Option Node :=
  match fs with
  | [] => none
  | (q, n) :: rest => if q = p then some n else FS.get rest p

/-- Write a node at `p` (overwriting any previous node there). -/
def FS.set (fs : FS) (p : Path) (n : Node) : FS := (p, n) :: fs

/-- `shutil.copy2(source, target)` where `target = dest / rel` and
`source = source_root / rel`: if the target is an existing *directory*,
`copy2` copies the file *into* it, at `target / basename(source)` —
i.e. at `rel ++ [last component of rel]` — leaving the directory in
place; otherwise it writes (or overwrites) the file at `rel`.  (The
redirect happens once; if the redirected target is itself a directory,
Python raises an unhandled exception, outside the model.) -/
def FS.copy2 (fs : FS) (rel : Path) (content : String) : FS :=
  if fs.get rel = some Node.dir then
    fs.set (rel ++ [rel.getLastD ""]) (.file content)
  else
    fs.set rel (.file content)

/-- `mkdir(exist_ok=True)` for a single path: create a directory there
unless something already exists. -/
def FS.ensureDir (fs : FS) (p : Path) : FS :=
  if (FS.get fs p).isSome then fs else (p, .dir) :: fs

/-- The nonempty prefixes of a path, shortest first. -/
def pathPrefixes (p : Path) : List Path :=
  (List.range p.length).map (fun i => p.take (i + 1))

/-- `path.mkdir(parents=True, exist_ok=True)`: create the directory and
every missing ancestor.  (In Python this raises if a file occupies one of
these paths; unhandled I/O errors are outside the model.) -/
def FS.mkdirp (fs : FS) (p : Path) : FS :=
  (pathPrefixes p).foldl FS.ensureDir fs

/-! ## `_copy_tree` -/

/-- One entry yielded by `source_root.rglob("*")`, with its path relative
to the source root. -/
inductive Entry where
  | dir (rel : Path)
  | file (rel : Path) (content : String)
deriving DecidableEq

def Entry.path : Entry → Path
  | .dir rel => rel
  | .file rel _ => rel

def Entry.isFile : Entry → Bool
  | .dir _ => false
  | .file _ _ => true

/-- The evolving state of the `_copy_tree` loop: the destination tree and
the `conflicts` list. -/
structure CopySt where
  fs : FS
  conflicts : List Path

/-- One iteration of the `for source in source_root.rglob("*")` loop
(`init.py` lines 175-188). -/
def copyStep (force : Bool) (st : CopySt) (e : Entry) : CopySt :=
  match e with
  | .dir rel => { st with fs := st.fs.mkdirp rel }
  | .file rel content =>
    if (st.fs.get rel).isSome && !force then
      { st with conflicts := st.conflicts ++ [rel] }
    else
      { fs := FS.copy2 (st.fs.mkdirp rel.dropLast) rel content,
        conflicts := st.conflicts }

/-- The full walk of `_copy_tree` over the listing of the source root. -/
def copyWalk (force : Bool) (entries : List Entry) (dest0 : FS) : CopySt :=
  entries.foldl (copyStep force) ⟨dest0, []⟩

/-- Rendering of a relative path in the conflict report
(`f"  - {item}"` uses `/`-separated relative paths on POSIX). -/
def showPath (p : Path) : String := String.intercalate "/" p

/-- The `RuntimeError` message built at `init.py` lines 191-195. -/
def conflictMessage (conflicts : List Path) : String :=
  let preview := String.intercalate "\n"
    ((conflicts.take 20).map (fun item => "  - " ++ showPath item))
  let more := if conflicts.length ≤ 20 then ""
    else "\n  ... 还有 " ++ toString (conflicts.length - 20) ++ " 个冲突文件"
  "目标目录存在同名文件，已停止写入。可使用 --force 覆盖。\n" ++
    "冲突文件示例:\n" ++ preview ++ more

/-- `_copy_tree`: performs the full walk, then raises iff any conflicts
were recorded.  The final destination tree is returned in either case
(the writes performed during the walk persist even when the error is
raised). -/
def copyTree (force : Bool) (entries : List Entry) (dest0 : FS) :
    FS × Except String Unit :=
  let st := copyWalk force entries dest0
  (st.fs, if st.conflicts.isEmpty then .ok () else .error (conflictMessage st.conflicts))

/-! ## Archive model, `_detect_root_folder`, `_download_and_extract` -/

/-- One entry of the downloaded zip archive, in `namelist()` order.
Entries whose name ends in `/` are directories; `content` is the
extracted byte content of file entries (empty for directories). -/
structure ZEntry where
  name : String
  content : String
deriving DecidableEq

abbrev Archive := List ZEntry

/-- The names `_detect_root_folder` keeps:
`[name for name in archive.namelist() if name and not name.startswith("__MACOSX/")]`. -/
def validNames (archive : Archive) : List String :=
  (archive.map ZEntry.name).filter
    (fun n => n != "" && !pyStartsWith n "__MACOSX/")

/-- `name.split("/", 1)[0]`: everything before the first `/`. -/
def splitHeadSlash (n : String) : String :=
  String.mk (n.toList.takeWhile (fun c => c != '/'))

/-- `_detect_root_folder`. -/
def detectRootFolder (archive : Archive) : Except String String :=
  match validNames archive with
  | [] => .error "压缩包为空。"
  | n :: _ => .ok (splitHeadSlash n)

/-- The relative path of a zip entry and whether it is a directory. -/
def zPath (name : String) : Path × Bool :=
  if pyEndsWith name "/" then (splitSlash (dropLastChar name), true)
  else (splitSlash name, false)

/-- Extraction of one entry by `archive.extractall` (parent directories
are created as needed).  Path sanitisation of hostile entry names
(leading `/`, `..` components) is not modelled; the claims only concern
archives with ordinary relative names. -/
def extractEntry (fs : FS) (e : ZEntry) : FS :=
  let pd := zPath e.name
  if pd.2 then fs.mkdirp pd.1
  else (fs.mkdirp pd.1.dropLast).set pd.1 (.file e.content)

/-- `archive.extractall(tmp_dir)`: the contents of the temporary
directory after extraction. -/
def extractAll (archive : Archive) : FS :=
  archive.foldl extractEntry []

/-- Outcome of `urllib.request.urlopen` for the archive download; the
downloaded bytes are abstracted as the already-parsed zip archive
(a malformed zip raises an unhandled `BadZipFile`, outside the model). -/
inductive DlResult where
  | ok (archive : Archive)
  | httpError (code : Nat) (body : String)
  | urlError (reason : String)

abbrev Dl := String → DlResult

/-- `_download_file`, with the `RuntimeError` messages it raises. -/
def downloadFile (dl : Dl) (url : String) : Except String Archive :=
  match dl url with
  | .ok archive => .ok archive
  | .httpError code body => .error ("下载失败 HTTP " ++ toString code ++ ": " ++ body)
  | .urlError reason => .error ("下载失败: " ++ reason)

/-- The OS's enumeration of the extracted root folder,
`source_root.rglob("*")` with paths taken relative to `source_root`.
Its order is OS-dependent, so it is a parameter of the model; claims
constrain it through `entriesWF` / `goodListing`. -/
abbrev ListTree := FS → String → List Entry

/-- `_download_and_extract` (given a successful `TemporaryDirectory`):
returns the destination tree after the call and the outcome
(`.error` for a raised `RuntimeError`). -/
def downloadAndExtract (dl : Dl) (listTree : ListTree) (zipUrl : String)
    (dest0 : FS) (force : Bool) : FS × Except String Unit :=
  match downloadFile dl zipUrl with
  | .error e => (dest0, .error e)
  | .ok archive =>
    match detectRootFolder archive with
    | .error e => (dest0, .error e)
    | .ok rootName =>
      let tmp := extractAll archive
      if (tmp.get [rootName]).isSome then
        copyTree force (listTree tmp rootName) dest0
      else
        (dest0, .error "解压后未找到源码目录。")

/-! ## `run` -/

/-- The parsed CLI arguments consumed by `run` (`args.version`,
`args.dest`, `args.force`). -/
structure Args where
  version : Option String
  dest : String
  force : Bool

/-- `version = args.version or "latest"` (an empty string is falsy). -/
def effectiveVersion : Option String → String
  | none => "latest"
  | some s => if s = "" then "latest" else s

/-- Observable side effects of `run`, in order.  `mkdirDest` is the
`dest.mkdir(parents=True, exist_ok=True)` call; `api`/`download` are the
network requests; `print` is a line written to stdout. -/
inductive Ev where
  | mkdirDest
  | api (url : String)
  | print (line : String)
  | download (url : String)
deriving DecidableEq

/-- Result of `run`: the exit code, the destination tree relative to
`dest`, and the event log. -/
structure RunOut where
  exit : Nat
  destFS : FS
  events : List Ev

/-- `run` (`init.py` lines 15-45).  `Path(args.dest).resolve()` is kept
as the given string (path normalisation is not modelled). -/
def run (net : Net) (dl : Dl) (listTree : ListTree) (args : Args)
    (dest0 : FS) : RunOut :=
  let version := effectiveVersion args.version
  let ev0 : List Ev := [.mkdirDest]
  match resolveSource net version with
  | (.error e, calls) =>
    ⟨1, dest0, ev0 ++ calls.map .api ++ [.print ("[init] 获取下载源失败: " ++ e)]⟩
  | (.ok source, calls) =>
    let tag := pyOr (dictGet source "tag_name") (.str version)
    let zipUrl := dictGet source "zipball_url"
    let sourceType := dictGetD source "source_type" (.str "unknown")
    if truthyV zipUrl then
      let infoEvs : List Ev :=
        [.print ("[init] 仓库: " ++ REPO_URL),
         .print ("[init] 来源: " ++ pyStr sourceType),
         .print ("[init] 版本: " ++ pyStr tag),
         .print ("[init] 目标目录: " ++ args.dest)]
      let de := downloadAndExtract dl listTree (pyStr zipUrl) dest0 args.force
      match de.2 with
      | .error e =>
        ⟨1, de.1, ev0 ++ calls.map .api ++ infoEvs ++
          [.download (pyStr zipUrl), .print ("[init] 初始化失败: " ++ e)]⟩
      | .ok _ =>
        ⟨0, de.1, ev0 ++ calls.map .api ++ infoEvs ++
          [.download (pyStr zipUrl), .print "[init] 完成。"]⟩
    else
      ⟨1, dest0, ev0 ++ calls.map .api ++
        [.print "[init] 下载源缺少 zipball_url，无法下载源码。"]⟩

/-! ## Spec-side decomposition of the conflict report

The spec describes the failure report as "up to 20 example conflicting
paths plus a count of the remainder".  `renderConflictReport` renders
that description; the claim about the report shows the message built by
`_copy_tree` equals this rendering of `(examples, remainder)`. -/

/-- Render a conflict report from its examples and optional remainder
count, following the spec's description of the output. -/
def renderConflictReport (examples : List Path) (remainder : Option Nat) : String :=
  "目标目录存在同名文件，已停止写入。可使用 --force 覆盖。\n" ++
    "冲突文件示例:\n" ++
    String.intercalate "\n" (examples.map (fun item => "  - " ++ showPath item)) ++
    (match remainder with
     | none => ""
     | some k => "\n  ... 还有 " ++ toString k ++ " 个冲突文件")

/-! ## Faithful listings of the extracted tree -/

/-- If `pn` is a file strictly below the folder `root`, its path
relative to `root` and its content. -/
def underRoot (root : String) (pn : Path × Node) : Option (Path × String) :=
  match pn with
  | (r :: rel, Node.file c) => if r = root ∧ rel ≠ [] then some (rel, c) else none
  | _ => none

/-- Every file entry of the listing `l` is a live file of `tmp`
strictly below `root`. -/
def listingSound (tmp : FS) (root : String) (l : List Entry) : Bool :=
  l.all (fun e => match e with
    | .file rel c => decide (tmp.get (root :: rel) = some (.file c))
    | .dir _ => true)

/-- No file entry of the listing has a pre-existing *directory* at its
target path: the "target files already exist" scenario of the spec
(`shutil.copy2` onto a directory would silently copy into it instead of
overwriting). -/
def noDirCollisions (l : List Entry) (dest0 : FS) : Bool :=
  l.all (fun e => match e with
    | .file rel _ => !(decide (dest0.get rel = some Node.dir))
    | .dir _ => true)

/-- Every live file of `tmp` strictly below `root` appears in the
listing `l` (with its relative path and content). -/
def listingComplete (tmp : FS) (root : String) (l : List Entry) : Bool :=
  tmp.all (fun pn =>
    match underRoot root pn with
    | none => true
    | some q => !(decide (tmp.get pn.1 = some pn.2)) || decide (Entry.file q.1 q.2 ∈ l))

/-- A concrete enumeration of an extracted tree below `root`, used to
instantiate the OS-dependent `rglob` enumeration in witnesses. -/
def modelListTree : ListTree := fun tmp root =>
  tmp.reverse.filterMap (fun pn =>
    match pn.1 with
    | [] => none
    | r :: rest =>
      if r = root ∧ rest ≠ [] then
        some (match pn.2 with
          | .dir => Entry.dir rest
          | .file c => Entry.file rest c)
      else none)

/-! ## Concrete fixtures used by witnesses and counterexamples -/

/-- A latest-release response with a usable archive link. -/
def relLatest : JValue :=
  .obj [("tag_name", .str "v1.0"),
        ("zipball_url", .str "https://api.github.com/repos/AmethystDev-Labs/LazyFox/zipball/v1.0")]

/-- A tag-listing item with a usable archive link. -/
def tagV09 : JValue :=
  .obj [("name", .str "v0.9"),
        ("zipball_url", .str "https://api.github.com/repos/AmethystDev-Labs/LazyFox/zipball/v0.9")]

/-- A tag-listing item with no `zipball_url` field at all. -/
def tagV09NoZip : JValue := .obj [("name", .str "v0.9")]

/-- A repository-info response carrying a default branch. -/
def repoMain : JValue := .obj [("default_branch", .str "main")]

/-- Network where the latest-release endpoint answers with `relLatest`. -/
def netRelease : Net := fun u =>
  if u = urlLatest then .ok relLatest else .urlError "unexpected"

/-- Network where the latest release is a 404 and one tag exists. -/
def netTagFallback : Net := fun u =>
  if u = urlLatest then .httpError 404 "not found"
  else if u = urlTags1 then .ok (.arr [tagV09])
  else .urlError "unexpected"

/-- Network where the latest release is a 404 and the tag listing is
empty, so resolution reaches the default branch. -/
def netBranchFallback : Net := fun u =>
  if u = urlLatest then .httpError 404 "not found"
  else if u = urlTags1 then .ok (.arr [])
  else if u = API_BASE then .ok repoMain
  else .urlError "unexpected"

/-- Network where the explicit version `v9` has no release and the tag
page holds only non-matching names. -/
def netExplicitMiss : Net := fun u =>
  if u = urlReleaseTag "v9" then .httpError 404 "not found"
  else if u = urlTags100 then .ok (.arr [tagV09])
  else .urlError "unexpected"

/-- Network whose latest-release endpoint fails with an HTTP 500 whose
body happens to contain the text `HTTP 404`. -/
def net500Body404 : Net := fun u =>
  if u = urlLatest then .httpError 500 "see HTTP 404 docs"
  else if u = urlTags1 then .ok (.arr [tagV09])
  else .urlError "unexpected"

/-- Network whose release endpoints fail with a plain HTTP 500. -/
def net500 : Net := fun u =>
  if u = urlLatest then .httpError 500 "boom"
  else if u = urlReleaseTag "v9" then .httpError 500 "boom"
  else .urlError "unexpected"

/-- Network with no connectivity at all. -/
def netOffline : Net := fun _ => .urlError "offline"

/-- Network where the latest release is a 404 and the most recent tag
lacks a `zipball_url`. -/
def netMissingZip : Net := fun u =>
  if u = urlLatest then .httpError 404 "not found"
  else if u = urlTags1 then .ok (.arr [tagV09NoZip])
  else .urlError "unexpected"

/-- A well-formed archive wrapped in a single root folder. -/
def sampleArchive : Archive :=
  [⟨"projectname-abcdef/", ""⟩,
   ⟨"projectname-abcdef/a.txt", "A"⟩,
   ⟨"projectname-abcdef/docs/", ""⟩,
   ⟨"projectname-abcdef/docs/b.txt", "B"⟩]

/-- A flat archive whose only entry is a plain file. -/
def flatArchive : Archive := [⟨"README", "x"⟩]

/-- An archive containing only macOS metadata. -/
def macArchive : Archive := [⟨"__MACOSX/junk", ""⟩]

def dlSample : Dl := fun _ => .ok sampleArchive

def dlFlat : Dl := fun _ => .ok flatArchive

def dlMac : Dl := fun _ => .ok macArchive

/-- The resolver output of `netRelease` for version `latest`. -/
def srcRelease : Dict :=
  [("source_type", .str "latest release"),
   ("tag_name", .str "v1.0"),
   ("zipball_url", .str "https://api.github.com/repos/AmethystDev-Labs/LazyFox/zipball/v1.0")]

/-- Destination tree with one file that collides with the sample
archive's `a.txt`. -/
def destOneConflict : FS := [(["a.txt"], Node.file "old")]

/-- 22 source file entries, used to exercise the >20 branch of the
conflict report. -/
def manyEntries : List Entry :=
  (List.range 22).map (fun i => Entry.file [toString i] "new")

/-- A destination where all 22 of `manyEntries` collide. -/
def manyDest : FS :=
  (List.range 22).map (fun i => ([toString i], Node.file "old"))

/-! ## Well-formed directory listings

`rglob` enumerates a real directory tree, so the entries it yields have
pairwise-distinct nonempty relative paths, and a *file*'s path is never a
proper prefix of another entry's path.  The claims about `_copy_tree`
quantify over listings satisfying this well-formedness. -/

def entriesWF (l : List Entry) : Prop :=
  (l.map Entry.path).Nodup ∧
  (∀ a ∈ l, ∀ b ∈ l, a.isFile = true → a.path ≠ b.path → ¬ a.path <+: b.path) ∧
  (∀ a ∈ l, a.path ≠ [])

instance (l : List Entry) : Decidable (entriesWF l) := by
  unfold entriesWF; infer_instance

/-- The relative paths of the file entries of a listing whose target
already exists in `dest0`, in listing order: the conflicts the walk
records. -/
def conflictsOf (l : List Entry) (dest0 : FS) : List Path :=
  l.filterMap (fun e => match e with
    | .file rel _ => if (dest0.get rel).isSome then some rel else none
    | .dir _ => none)

/-- A listing faithfully enumerates the extracted tree below `root`:
it is well formed, its file entries are exactly the live files of `tmp`
strictly below `root`, at root-stripped relative paths. -/
def goodListing (tmp : FS) (root : String) (l : List Entry) : Prop :=
  entriesWF l ∧ listingSound tmp root l = true ∧ listingComplete tmp root l = true

instance (tmp : FS) (root : String) (l : List Entry) :
    Decidable (goodListing tmp root l) := by
  unfold goodListing; infer_instance

/-! ## Basic facts about the filesystem model -/

theorem FS.get_cons (fs : FS) (q : Path) (n : Node) (p : Path) :
    FS.get ((q, n) :: fs) p = if q = p then some n else fs.get p := rfl

theorem FS.get_set_self (fs : FS) (p : Path) (n : Node) :
    (fs.set p n).get p = some n := by
  simp [FS.set, FS.get_cons]

theorem FS.get_set_ne (fs : FS) {q p : Path} (hq : q ≠ p) (n : Node) :
    (fs.set q n).get p = fs.get p := by
  simp [FS.set, FS.get_cons, hq]

theorem FS.get_ensureDir_some {fs : FS} {p : Path} {n : Node} (r : Path)
    (h : fs.get p = some n) : (fs.ensureDir r).get p = some n := by
  unfold FS.ensureDir
  split
  · exact h
  · next hr =>
    rw [FS.get_cons]
    split
    · next hrp => subst hrp; rw [h] at hr; simp at hr
    · exact h

theorem FS.get_ensureDir_ne {fs : FS} {r p : Path} (h : r ≠ p) :
    (fs.ensureDir r).get p = fs.get p := by
  unfold FS.ensureDir
  split
  · rfl
  · rw [FS.get_cons, if_neg h]

theorem FS.get_foldl_ensureDir_some (ps : List Path) {fs : FS} {p : Path}
    {n : Node} (h : fs.get p = some n) :
    (ps.foldl FS.ensureDir fs).get p = some n := by
  induction ps generalizing fs with
  | nil => exact h
  | cons r rest ih => exact ih (FS.get_ensureDir_some r h)

theorem FS.get_foldl_ensureDir_notmem {ps : List Path} {fs : FS} {p : Path}
    (h : ∀ r ∈ ps, r ≠ p) : (ps.foldl FS.ensureDir fs).get p = fs.get p := by
  induction ps generalizing fs with
  | nil => rfl
  | cons r rest ih =>
    rw [List.foldl_cons, ih (fun x hx => h x (List.mem_cons_of_mem _ hx)),
      FS.get_ensureDir_ne (h r (List.mem_cons_self _ _))]

theorem mem_pathPrefixes {r q : Path} (h : r ∈ pathPrefixes q) :
    r ≠ [] ∧ r <+: q := by
  unfold pathPrefixes at h
  rcases List.mem_map.mp h with ⟨i, hi, rfl⟩
  have hi' := List.mem_range.mp hi
  refine ⟨?_, List.take_prefix _ _⟩
  intro hnil
  have hlen : (q.take (i + 1)).length = 0 := by rw [hnil]; rfl
  rw [List.length_take] at hlen
  omega

theorem FS.get_mkdirp_some {fs : FS} {p : Path} {n : Node} (q : Path)
    (h : fs.get p = some n) : (fs.mkdirp q).get p = some n :=
  FS.get_foldl_ensureDir_some _ h

theorem FS.get_mkdirp_unrelated {fs : FS} {q p : Path} (h : ¬ p <+: q) :
    (fs.mkdirp q).get p = fs.get p :=
  FS.get_foldl_ensureDir_notmem
    (fun _ hr hrp => h (hrp ▸ (mem_pathPrefixes hr).2))

/-- Creating a file's parent directories does not touch the file's own
path: every prefix of `rel.dropLast` is strictly shorter than `rel`. -/
theorem FS.get_mkdirp_dropLast (fs : FS) (rel : Path) :
    (fs.mkdirp rel.dropLast).get rel = fs.get rel := by
  refine FS.get_foldl_ensureDir_notmem (fun r hr heq => ?_)
  obtain ⟨hne, hpre⟩ := mem_pathPrefixes hr
  rw [heq] at hne hpre
  have hlen := hpre.length_le
  rw [List.length_dropLast] at hlen
  have hpos : rel.length ≠ 0 := fun h0 => hne (List.length_eq_zero.mp h0)
  omega

/-- `copy2` onto a path that holds nothing writes the file there. -/
theorem FS.copy2_of_get_none {fs : FS} {rel : Path} (c : String)
    (h : fs.get rel = none) :
    FS.copy2 fs rel c = fs.set rel (.file c) := by
  unfold FS.copy2
  rw [if_neg]
  simp [h]

/-- `copy2` onto a path that does not hold a directory leaves the file
content there. -/
theorem FS.copy2_get_self {fs : FS} {rel : Path} (c : String)
    (h : fs.get rel ≠ some Node.dir) :
    (FS.copy2 fs rel c).get rel = some (.file c) := by
  unfold FS.copy2
  rw [if_neg h]
  exact FS.get_set_self _ _ _

/-- `copy2` targeting `q` (writing at `q` or, into a directory, at
`q ++ [basename]`) does not touch a path `p` that `q` does not lead
into. -/
theorem FS.copy2_get_ne {fs : FS} {q p : Path} (c : String)
    (hq : ¬ q <+: p) :
    (FS.copy2 fs q c).get p = fs.get p := by
  unfold FS.copy2
  split
  · refine FS.get_set_ne _ ?_ _
    intro heq
    exact hq (heq ▸ List.prefix_append q _)
  · refine FS.get_set_ne _ ?_ _
    intro heq
    exact hq (heq ▸ List.prefix_rfl)

/-! ## The copy walk -/

theorem copyStep_dir (force : Bool) (st : CopySt) (d : Path) :
    copyStep force st (.dir d) = { st with fs := st.fs.mkdirp d } := rfl

theorem copyStep_file (force : Bool) (st : CopySt) (rel : Path) (c : String) :
    copyStep force st (.file rel c) =
      if (st.fs.get rel).isSome && !force then
        { st with conflicts := st.conflicts ++ [rel] }
      else
        { fs := FS.copy2 (st.fs.mkdirp rel.dropLast) rel c,
          conflicts := st.conflicts } := rfl

/-- When the target path holds nothing yet, the copy branch writes the
file at the target itself (the directory redirect of `copy2` cannot
trigger, and with `force` off the conflict branch is not taken). -/
theorem copyStep_file_fresh (force : Bool) (st : CopySt) (rel : Path)
    (c : String) (hnone : st.fs.get rel = none) :
    copyStep force st (.file rel c) =
      { fs := (st.fs.mkdirp rel.dropLast).set rel (.file c),
        conflicts := st.conflicts } := by
  rw [copyStep_file, if_neg (by simp [hnone])]
  rw [FS.copy2_of_get_none c (by rw [FS.get_mkdirp_dropLast]; exact hnone)]

/-- A copy step leaves the destination node at `rel` unchanged whenever
the processed entry's path is neither `rel`, nor an extension of it,
nor — for a file entry — a path `rel` extends. -/
theorem copyStep_get_other (force : Bool) {st : CopySt} {e : Entry} {rel : Path}
    (hne : e.path ≠ rel) (hnp : ¬ rel <+: e.path)
    (hnp2 : e.isFile = true → ¬ e.path <+: rel) :
    (copyStep force st e).fs.get rel = st.fs.get rel := by
  cases e with
  | dir d =>
    rw [copyStep_dir]
    exact FS.get_mkdirp_unrelated hnp
  | file rel' c' =>
    have hnp' : ¬ rel <+: rel' := hnp
    have hnp2' : ¬ rel' <+: rel := hnp2 rfl
    rw [copyStep_file]
    split
    · rfl
    · show (FS.copy2 (st.fs.mkdirp rel'.dropLast) rel' c').get rel = _
      rw [FS.copy2_get_ne c' hnp2']
      exact FS.get_mkdirp_unrelated
        (fun hpre => hnp' (hpre.trans <| List.dropLast_prefix _))

theorem entriesWF_cons {e : Entry} {l : List Entry} (h : entriesWF (e :: l)) :
    entriesWF l := by
  obtain ⟨h1, h2, h3⟩ := h
  rw [List.map_cons, List.nodup_cons] at h1
  exact ⟨h1.2,
    fun a ha b hb => h2 a (List.mem_cons_of_mem _ ha) b (List.mem_cons_of_mem _ hb),
    fun a ha => h3 a (List.mem_cons_of_mem _ ha)⟩

theorem entriesWF_head_ne {e : Entry} {l : List Entry} (h : entriesWF (e :: l))
    {a : Entry} (ha : a ∈ l) : a.path ≠ e.path := by
  obtain ⟨h1, -, -⟩ := h
  rw [List.map_cons, List.nodup_cons] at h1
  intro heq
  exact h1.1 (heq ▸ List.mem_map_of_mem Entry.path ha)

/-- With a well-formed listing, processing the head entry does not touch
the target of a file entry that appears later in the listing. -/
theorem copyStep_get_later (force : Bool) (st : CopySt) {e : Entry}
    {l : List Entry} {rel : Path} {c : String}
    (hWF : entriesWF (e :: l)) (hmem : Entry.file rel c ∈ l) :
    (copyStep force st e).fs.get rel = st.fs.get rel := by
  have hne : e.path ≠ rel := by
    have := entriesWF_head_ne hWF hmem
    simpa [Entry.path] using this.symm
  refine copyStep_get_other force hne ?_ ?_
  · exact hWF.2.1 (Entry.file rel c) (List.mem_cons_of_mem _ hmem)
      e (List.mem_cons_self _ _) rfl (by simpa [Entry.path] using hne.symm)
  · intro hf
    exact hWF.2.1 e (List.mem_cons_self _ _) (Entry.file rel c)
      (List.mem_cons_of_mem _ hmem) hf hne

/-- With `force` off, no node of the destination tree is ever
overwritten: any binding present at some point of the walk survives to
its end. -/
theorem copyWalk_some_false {p : Path} {n : Node} :
    ∀ (l : List Entry) (st : CopySt), st.fs.get p = some n →
      (l.foldl (copyStep false) st).fs.get p = some n := by
  intro l
  induction l with
  | nil => intro st h; exact h
  | cons e rest ih =>
    intro st h
    rw [List.foldl_cons]
    apply ih
    cases e with
    | dir d =>
      rw [copyStep_dir]
      exact FS.get_mkdirp_some _ h
    | file rel c =>
      by_cases hg : st.fs.get rel = none
      · rw [copyStep_file_fresh false st rel c hg]
        show ((st.fs.mkdirp rel.dropLast).set rel (.file c)).get p = some n
        have hrp : rel ≠ p := by
          intro hrp
          rw [hrp, h] at hg
          cases hg
        rw [FS.get_set_ne _ hrp]
        exact FS.get_mkdirp_some _ h
      · have hs : (st.fs.get rel).isSome = true := by
          cases hgc : st.fs.get rel with
          | none => exact absurd hgc hg
          | some m => rfl
        rw [copyStep_file, if_pos (by simp [hs])]
        exact h

/-- With `force` off and a well-formed listing, every file entry whose
target is initially absent ends up copied with its source content. -/
theorem copyWalk_copied_false {rel : Path} {c : String} :
    ∀ (l : List Entry) (st : CopySt), entriesWF l → Entry.file rel c ∈ l →
      st.fs.get rel = none →
      (l.foldl (copyStep false) st).fs.get rel = some (.file c) := by
  intro l
  induction l with
  | nil => intro st _ h _; cases h
  | cons e rest ih =>
    intro st hWF hmem hnone
    rw [List.foldl_cons]
    rcases List.mem_cons.mp hmem with heq | hmem'
    · subst heq
      have hstep : copyStep false st (Entry.file rel c) =
          { fs := (st.fs.mkdirp rel.dropLast).set rel (.file c),
            conflicts := st.conflicts } :=
        copyStep_file_fresh false st rel c hnone
      rw [hstep]
      exact copyWalk_some_false rest _ (FS.get_set_self _ _ _)
    · refine ih _ (entriesWF_cons hWF) hmem' ?_
      rw [copyStep_get_later false st hWF hmem']
      exact hnone

/-- With `force` off and a well-formed listing, the recorded conflicts
are exactly the file entries whose target already existed before the
walk, in listing order. -/
theorem copyWalk_conflicts_false (dest0 : FS) :
    ∀ (l : List Entry) (st : CopySt), entriesWF l →
      (∀ rel c, Entry.file rel c ∈ l → st.fs.get rel = dest0.get rel) →
      (l.foldl (copyStep false) st).conflicts = st.conflicts ++ conflictsOf l dest0 := by
  intro l
  induction l with
  | nil => intro st _ _; simp [conflictsOf]
  | cons e rest ih =>
    intro st hWF hinv
    rw [List.foldl_cons]
    cases e with
    | dir d =>
      rw [copyStep_dir]
      have hrec := ih { st with fs := st.fs.mkdirp d } (entriesWF_cons hWF)
        (fun rel c hm => by
          have h1 := copyStep_get_later false st hWF hm
          rw [copyStep_dir] at h1
          exact h1.trans (hinv rel c (List.mem_cons_of_mem _ hm)))
      rw [hrec]
      simp [conflictsOf]
    | file relE cE =>
      have hE := hinv relE cE (List.mem_cons_self _ _)
      by_cases hocc : (dest0.get relE).isSome
      · have hstep : copyStep false st (Entry.file relE cE) =
            { st with conflicts := st.conflicts ++ [relE] } := by
          rw [copyStep_file, if_pos]
          rw [hE]
          simp [hocc]
        rw [hstep]
        have hrec := ih { st with conflicts := st.conflicts ++ [relE] }
          (entriesWF_cons hWF)
          (fun rel c hm => hinv rel c (List.mem_cons_of_mem _ hm))
        rw [hrec]
        simp [conflictsOf, hocc, List.append_assoc]
      · have hnone : st.fs.get relE = none := by
          rw [hE]
          cases hgc : dest0.get relE with
          | none => rfl
          | some m => rw [hgc] at hocc; simp at hocc
        have hstep : copyStep false st (Entry.file relE cE) =
            { fs := (st.fs.mkdirp relE.dropLast).set relE (.file cE),
              conflicts := st.conflicts } :=
          copyStep_file_fresh false st relE cE hnone
        rw [hstep]
        have hrec := ih
          { fs := (st.fs.mkdirp relE.dropLast).set relE (.file cE),
            conflicts := st.conflicts }
          (entriesWF_cons hWF)
          (fun rel c hm => by
            have h1 := copyStep_get_later false st hWF hm
            rw [hstep] at h1
            exact h1.trans (hinv rel c (List.mem_cons_of_mem _ hm)))
        rw [hrec]
        simp [conflictsOf, hocc]

/-- With `force` on, the conflict list never grows: the guard
`target.exists() and not force` is always false. -/
theorem copyWalk_conflicts_true :
    ∀ (l : List Entry) (st : CopySt),
      (l.foldl (copyStep true) st).conflicts = st.conflicts := by
  intro l
  induction l with
  | nil => intro st; rfl
  | cons e rest ih =>
    intro st
    rw [List.foldl_cons, ih]
    cases e with
    | dir d => rfl
    | file rel c => rw [copyStep_file]; simp

/-- With `force` on, a binding at a path that no file entry of the
remaining listing targets or leads into survives the walk. -/
theorem copyWalk_pres_true {p : Path} {n : Node} :
    ∀ (l : List Entry) (st : CopySt),
      (∀ rel' c', Entry.file rel' c' ∈ l → ¬ rel' <+: p) →
      st.fs.get p = some n →
      (l.foldl (copyStep true) st).fs.get p = some n := by
  intro l
  induction l with
  | nil => intro st _ h; exact h
  | cons e rest ih =>
    intro st hout h
    rw [List.foldl_cons]
    refine ih _ (fun rel' c' hc => hout rel' c' (List.mem_cons_of_mem _ hc)) ?_
    cases e with
    | dir d =>
      rw [copyStep_dir]
      exact FS.get_mkdirp_some _ h
    | file rel c =>
      have hguard : ¬(((st.fs.get rel).isSome && !true) = true) := by simp
      rw [copyStep_file, if_neg hguard]
      show (FS.copy2 (st.fs.mkdirp rel.dropLast) rel c).get p = some n
      rw [FS.copy2_get_ne c (hout rel c (List.mem_cons_self _ _))]
      exact FS.get_mkdirp_some _ h

/-- With `force` on and a well-formed listing whose file targets hold
no pre-existing directory, every file entry ends up at its target with
its source content — pre-existing target files are overwritten. -/
theorem copyWalk_copied_true {rel : Path} {c : String} :
    ∀ (l : List Entry) (st : CopySt), entriesWF l →
      (∀ rel' c', Entry.file rel' c' ∈ l → st.fs.get rel' ≠ some Node.dir) →
      Entry.file rel c ∈ l →
      (l.foldl (copyStep true) st).fs.get rel = some (.file c) := by
  intro l
  induction l with
  | nil => intro st _ _ h; cases h
  | cons e rest ih =>
    intro st hWF hnd hmem
    rw [List.foldl_cons]
    rcases List.mem_cons.mp hmem with heq | hmem'
    · subst heq
      have hguard : ¬(((st.fs.get rel).isSome && !true) = true) := by simp
      rw [copyStep_file, if_neg hguard]
      refine copyWalk_pres_true rest _ ?_ ?_
      · intro rel' c' hc'
        have hne : rel' ≠ rel := by
          have := entriesWF_head_ne hWF hc'
          simpa [Entry.path] using this
        exact hWF.2.1 (Entry.file rel' c') (List.mem_cons_of_mem _ hc')
          (Entry.file rel c) (List.mem_cons_self _ _) rfl hne
      · show (FS.copy2 (st.fs.mkdirp rel.dropLast) rel c).get rel = some (.file c)
        refine FS.copy2_get_self c ?_
        rw [FS.get_mkdirp_dropLast]
        exact hnd rel c (List.mem_cons_self _ _)
    · refine ih _ (entriesWF_cons hWF) ?_ hmem'
      intro rel' c' hc'
      rw [copyStep_get_later true st hWF hc']
      exact hnd rel' c' (List.mem_cons_of_mem _ hc')

/-! ## Facts about `_api_get` error texts and `releaseStep` -/

/-- The `RuntimeError` text built for an HTTP 404 always contains the
substring `"HTTP 404"`, so the `except` clause swallows it. -/
theorem pyIn_http404 (body : String) :
    pyIn "HTTP 404" ("HTTP " ++ toString (404 : Nat) ++ ": " ++ body) = true := by
  obtain ⟨l⟩ := body
  rfl

/-- A 404 answer from a release endpoint makes the guarded release
lookup fall through. -/
theorem releaseStep_none_404 (net : Net) (url st fb : String) (body : String)
    (h : net url = .httpError 404 body) :
    releaseStep net url st fb = none := by
  unfold releaseStep apiGet
  rw [h]
  simp [pyIn_http404 body]

/-- A release answer that is a dict with a truthy `zipball_url` makes
the guarded release lookup succeed with the release descriptor. -/
theorem releaseStep_some_ok (net : Net) (url st fb : String) {rel : JValue}
    (h : net url = .ok rel) (hobj : isObj rel = true)
    (hzip : truthyV (jGet rel "zipball_url") = true) :
    releaseStep net url st fb =
      some (.ok [("source_type", .str st),
                 ("tag_name", pyOr (jGet rel "tag_name") (.str fb)),
                 ("zipball_url", jGet rel "zipball_url")]) := by
  unfold releaseStep apiGet
  rw [h]
  simp [hobj, hzip]

/-- An HTTP error whose `RuntimeError` text does not contain
`"HTTP 404"` escapes the guarded release lookup as an error. -/
theorem releaseStep_some_err (net : Net) (url st fb : String) (code : Nat)
    (body : String) (h : net url = .httpError code body)
    (h404 : pyIn "HTTP 404" ("HTTP " ++ toString code ++ ": " ++ body) = false) :
    releaseStep net url st fb =
      some (.error ("HTTP " ++ toString code ++ ": " ++ body)) := by
  unfold releaseStep apiGet
  rw [h]
  simp [h404]

theorem resolveSource_latest_step (net : Net) {r : Except String Dict}
    (h : releaseStep net urlLatest "latest release" "latest" = some r) :
    resolveSource net "latest" = (r, [urlLatest]) := by
  unfold resolveSource
  rw [if_pos rfl, h]

theorem resolveSource_explicit_step (net : Net) {v : String} (hv : v ≠ "latest")
    {r : Except String Dict}
    (h : releaseStep net (urlReleaseTag v) "release tag" v = some r) :
    resolveSource net v = (r, [urlReleaseTag v]) := by
  unfold resolveSource
  rw [if_neg hv, h]

/-! ## Facts about `_copy_tree`'s results -/

theorem FS.get_mem {fs : FS} {p : Path} {n : Node} (h : fs.get p = some n) :
    (p, n) ∈ fs := by
  induction fs with
  | nil => cases h
  | cons e rest ih =>
    obtain ⟨q, m⟩ := e
    rw [FS.get_cons] at h
    by_cases hqp : q = p
    · rw [if_pos hqp] at h
      cases h
      rw [hqp]
      exact List.mem_cons_self _ _
    · rw [if_neg hqp] at h
      exact List.mem_cons_of_mem _ (ih h)

/-- Into a destination free of colliding targets, every file entry of a
well-formed listing is copied, whatever `force` is. -/
theorem copyWalk_copied_clean {rel : Path} {c : String} (force : Bool)
    (l : List Entry) (dest0 : FS) (hWF : entriesWF l)
    (hclean : ∀ rel' c', Entry.file rel' c' ∈ l → dest0.get rel' = none)
    (hmem : Entry.file rel c ∈ l) :
    (copyWalk force l dest0).fs.get rel = some (.file c) := by
  cases force with
  | false => exact copyWalk_copied_false l ⟨dest0, []⟩ hWF hmem (hclean rel c hmem)
  | true =>
    exact copyWalk_copied_true l ⟨dest0, []⟩ hWF
      (fun rel' c' hm' => by simp [hclean rel' c' hm']) hmem

theorem conflictsOf_eq_nil {l : List Entry} {dest0 : FS}
    (hclean : ∀ rel c, Entry.file rel c ∈ l → dest0.get rel = none) :
    conflictsOf l dest0 = [] := by
  unfold conflictsOf
  rw [List.filterMap_eq_nil_iff]
  intro e he
  cases e with
  | dir d => rfl
  | file rel c => simp [hclean rel c he]

theorem noDirCollisions_spec {l : List Entry} {dest0 : FS}
    (h : noDirCollisions l dest0 = true) {rel : Path} {c : String}
    (hm : Entry.file rel c ∈ l) : dest0.get rel ≠ some Node.dir := by
  have hall := List.all_eq_true.mp h _ hm
  simpa using hall

theorem conflictsOf_ne_nil {l : List Entry} {dest0 : FS} {rel : Path} {c : String}
    (hmem : Entry.file rel c ∈ l) (hocc : (dest0.get rel).isSome = true) :
    conflictsOf l dest0 ≠ [] := by
  have hmem2 : rel ∈ conflictsOf l dest0 := by
    unfold conflictsOf
    exact List.mem_filterMap.mpr ⟨Entry.file rel c, hmem, by simp [hocc]⟩
  exact List.ne_nil_of_mem hmem2

/-- The conflict list of the whole walk, starting from the initial
destination. -/
theorem copyWalk_conflicts_eq {l : List Entry} (dest0 : FS) (hWF : entriesWF l) :
    (copyWalk false l dest0).conflicts = conflictsOf l dest0 := by
  have h := copyWalk_conflicts_false dest0 l ⟨dest0, []⟩ hWF (fun _ _ _ => rfl)
  simpa using h

theorem copyTree_fst (force : Bool) (l : List Entry) (dest0 : FS) :
    (copyTree force l dest0).1 = (copyWalk force l dest0).fs := rfl

theorem copyTree_snd_eq (force : Bool) (l : List Entry) (dest0 : FS) :
    (copyTree force l dest0).2 =
      if (copyWalk force l dest0).conflicts.isEmpty then Except.ok ()
      else Except.error (conflictMessage (copyWalk force l dest0).conflicts) := rfl

theorem copyTree_snd_error {force : Bool} {l : List Entry} {dest0 : FS}
    (h : (copyWalk force l dest0).conflicts ≠ []) :
    (copyTree force l dest0).2 =
      .error (conflictMessage (copyWalk force l dest0).conflicts) := by
  rw [copyTree_snd_eq, if_neg]
  simp [h]

theorem copyTree_snd_ok {force : Bool} {l : List Entry} {dest0 : FS}
    (h : (copyWalk force l dest0).conflicts = []) :
    (copyTree force l dest0).2 = .ok () := by
  rw [copyTree_snd_eq, if_pos]
  simp [h]

/-- The message of `_copy_tree`'s conflict error, decomposed as the spec
describes it: the first 20 conflicts as examples, plus the count of the
remainder when there are more than 20. -/
theorem conflictMessage_eq_render (conflicts : List Path) :
    conflictMessage conflicts =
      renderConflictReport (conflicts.take 20)
        (if conflicts.length ≤ 20 then none else some (conflicts.length - 20)) := by
  unfold conflictMessage renderConflictReport
  by_cases hlen : conflicts.length ≤ 20 <;> simp [hlen]

/-! ## Reduction of `_download_and_extract` and `run` -/

theorem downloadAndExtract_copy (dl : Dl) (listTree : ListTree)
    (zipUrl : String) (dest0 : FS) (force : Bool) {archive : Archive}
    {rootName : String} (hdl : dl zipUrl = .ok archive)
    (hroot : detectRootFolder archive = .ok rootName)
    (hex : ((extractAll archive).get [rootName]).isSome = true) :
    downloadAndExtract dl listTree zipUrl dest0 force =
      copyTree force (listTree (extractAll archive) rootName) dest0 := by
  simp only [downloadAndExtract, downloadFile, hdl, hroot, hex, if_true]

theorem run_resolve_error (net : Net) (dl : Dl) (listTree : ListTree)
    (args : Args) (dest0 : FS) {e : String} {calls : List String}
    (h : resolveSource net (effectiveVersion args.version) = (.error e, calls)) :
    run net dl listTree args dest0 =
      ⟨1, dest0, [Ev.mkdirDest] ++ calls.map Ev.api ++
        [.print ("[init] 获取下载源失败: " ++ e)]⟩ := by
  simp only [run]
  rw [h]

theorem run_no_zip (net : Net) (dl : Dl) (listTree : ListTree)
    (args : Args) (dest0 : FS) {src : Dict} {calls : List String}
    (h : resolveSource net (effectiveVersion args.version) = (.ok src, calls))
    (hz : truthyV (dictGet src "zipball_url") = false) :
    run net dl listTree args dest0 =
      ⟨1, dest0, [Ev.mkdirDest] ++ calls.map Ev.api ++
        [.print "[init] 下载源缺少 zipball_url，无法下载源码。"]⟩ := by
  simp only [run]
  rw [h]
  simp [hz]

theorem run_de_error (net : Net) (dl : Dl) (listTree : ListTree)
    (args : Args) (dest0 : FS) {src : Dict} {calls : List String} {msg : String}
    (h : resolveSource net (effectiveVersion args.version) = (.ok src, calls))
    (hz : truthyV (dictGet src "zipball_url") = true)
    (hde : (downloadAndExtract dl listTree (pyStr (dictGet src "zipball_url"))
      dest0 args.force).2 = .error msg) :
    (run net dl listTree args dest0).exit = 1 ∧
    (run net dl listTree args dest0).destFS =
      (downloadAndExtract dl listTree (pyStr (dictGet src "zipball_url"))
        dest0 args.force).1 := by
  simp only [run]
  rw [h]
  simp [hz, hde]

theorem run_de_ok (net : Net) (dl : Dl) (listTree : ListTree)
    (args : Args) (dest0 : FS) {src : Dict} {calls : List String}
    (h : resolveSource net (effectiveVersion args.version) = (.ok src, calls))
    (hz : truthyV (dictGet src "zipball_url") = true)
    (hde : (downloadAndExtract dl listTree (pyStr (dictGet src "zipball_url"))
      dest0 args.force).2 = .ok ()) :
    (run net dl listTree args dest0).exit = 0 ∧
    (run net dl listTree args dest0).destFS =
      (downloadAndExtract dl listTree (pyStr (dictGet src "zipball_url"))
        dest0 args.force).1 := by
  simp only [run]
  rw [h]
  simp [hz, hde]

/-! ## Claims -/

/-- **C1**: For version "latest", resolution follows the ordered
fallback with first success winning: a latest-release answer with a
valid archive link is used with no tag or branch request; on a 404 from
the release endpoint the single most recent tag is used when the tag
listing is nonempty; only an empty tag listing falls back to the default
branch. -/
theorem C1_latest_fallback_order (net : Net) :
    (∀ rel : JValue, net urlLatest = .ok rel → isObj rel = true →
      truthyV (jGet rel "zipball_url") = true →
      resolveSource net "latest" =
        (.ok [("source_type", .str "latest release"),
              ("tag_name", pyOr (jGet rel "tag_name") (.str "latest")),
              ("zipball_url", jGet rel "zipball_url")],
         [urlLatest])) ∧
    (∀ (body : String) (t : JValue) (ts : List JValue),
      net urlLatest = .httpError 404 body →
      net urlTags1 = .ok (.arr (t :: ts)) →
      resolveSource net "latest" =
        (.ok [("source_type", .str "latest tag"),
              ("tag_name", pyOr (jGet t "name") (.str "latest-tag")),
              ("zipball_url", jGet t "zipball_url")],
         [urlLatest, urlTags1])) ∧
    (∀ body : String,
      net urlLatest = .httpError 404 body →
      net urlTags1 = .ok (.arr []) →
      resolveSource net "latest" =
        ((defaultBranchSource net).1,
         [urlLatest, urlTags1] ++ (defaultBranchSource net).2)) := by
  refine ⟨?_, ?_, ?_⟩
  · intro rel h hobj hzip
    exact resolveSource_latest_step net
      (releaseStep_some_ok net urlLatest _ _ h hobj hzip)
  · intro body t ts h404 htags
    unfold resolveSource
    rw [if_pos rfl, releaseStep_none_404 net urlLatest _ _ body h404]
    simp [apiGet, htags]
  · intro body h404 htags
    unfold resolveSource
    rw [if_pos rfl, releaseStep_none_404 net urlLatest _ _ body h404]
    rcases hdb : defaultBranchSource net with ⟨r, t⟩
    simp [apiGet, htags, hdb]

/-- **C1** witness: the three fallback stages at concrete networks. -/
theorem C1_latest_fallback_order_w :
    resolveSource netRelease "latest" = (.ok srcRelease, [urlLatest]) ∧
    resolveSource netTagFallback "latest" =
      (.ok [("source_type", .str "latest tag"),
            ("tag_name", .str "v0.9"),
            ("zipball_url", .str "https://api.github.com/repos/AmethystDev-Labs/LazyFox/zipball/v0.9")],
       [urlLatest, urlTags1]) ∧
    resolveSource netBranchFallback "latest" =
      (.ok [("source_type", .str "default branch (main)"),
            ("tag_name", .str "main"),
            ("zipball_url", .str "https://github.com/AmethystDev-Labs/LazyFox/archive/refs/heads/main.zip")],
       [urlLatest, urlTags1, API_BASE]) := by
  refine ⟨?_, ?_, ?_⟩
  · exact (C1_latest_fallback_order netRelease).1 relLatest rfl rfl rfl
  · exact (C1_latest_fallback_order netTagFallback).2.1 "not found" tagV09 [] rfl rfl
  · exact (C1_latest_fallback_order netBranchFallback).2.2 "not found" rfl rfl

/-- **C3**: an explicit version matching no release (404) and no tag
name in the scanned page fails with the "not found" error, and the two
requests made are the only ones: no further network call follows the
determination. -/
theorem C3_explicit_not_found (net : Net) (v : String) (body : String)
    (items : List JValue) (hv : v ≠ "latest")
    (h404 : net (urlReleaseTag v) = .httpError 404 body)
    (htags : net urlTags100 = .ok (.arr items))
    (hmiss : ∀ item ∈ items, pyEqStr (jGet item "name") v = false) :
    resolveSource net v =
      (.error ("未找到版本 `" ++ v ++ "` 的 release 或 tag。"),
       [urlReleaseTag v, urlTags100]) := by
  unfold resolveSource
  rw [if_neg hv, releaseStep_none_404 net (urlReleaseTag v) _ _ body h404]
  have hfind : items.find? (fun item => pyEqStr (jGet item "name") v) = none :=
    List.find?_eq_none.mpr (fun item hmem => by simp [hmiss item hmem])
  simp [apiGet, htags, hfind]

/-- **C3** witness. -/
theorem C3_explicit_not_found_w :
    resolveSource netExplicitMiss "v9" =
      (.error "未找到版本 `v9` 的 release 或 tag。",
       [urlReleaseTag "v9", urlTags100]) :=
  C3_explicit_not_found netExplicitMiss "v9" "not found" [tagV09]
    (by decide) rfl rfl (by decide)

/-- **C4** (counterexample): the claim says every non-404 HTTP error
from a release endpoint propagates immediately and only a not-found
response triggers fall-through.  But the `except` clause tests the
*text* `"HTTP 404" in str(exc)`: here the latest-release endpoint fails
with HTTP **500** whose body mentions "HTTP 404", and instead of
propagating, resolution falls through to the tag listing and succeeds. -/
theorem C4_substring_fallthrough_cex :
    net500Body404 urlLatest = HttpResult.httpError 500 "see HTTP 404 docs" ∧
    resolveSource net500Body404 "latest" =
      (.ok [("source_type", .str "latest tag"),
            ("tag_name", .str "v0.9"),
            ("zipball_url", .str "https://api.github.com/repos/AmethystDev-Labs/LazyFox/zipball/v0.9")],
       [urlLatest, urlTags1]) :=
  ⟨rfl, rfl⟩

/-- **C4** (amended): an HTTP error from a release endpoint propagates
immediately — with no further network call — whenever its
`RuntimeError` text `"HTTP {code}: {body}"` does not contain the
substring `"HTTP 404"`; only a message containing that substring (in
particular, every true 404 response) triggers fall-through. -/
theorem C4_http_error_propagation (net : Net) (v : String) (code : Nat)
    (body : String) (hv : v ≠ "latest")
    (h404 : pyIn "HTTP 404" ("HTTP " ++ toString code ++ ": " ++ body) = false) :
    (net urlLatest = .httpError code body →
      resolveSource net "latest" =
        (.error ("HTTP " ++ toString code ++ ": " ++ body), [urlLatest])) ∧
    (net (urlReleaseTag v) = .httpError code body →
      resolveSource net v =
        (.error ("HTTP " ++ toString code ++ ": " ++ body), [urlReleaseTag v])) := by
  constructor
  · intro h
    exact resolveSource_latest_step net
      (releaseStep_some_err net urlLatest _ _ code body h h404)
  · intro h
    exact resolveSource_explicit_step net hv
      (releaseStep_some_err net (urlReleaseTag v) _ _ code body h h404)

/-- **C4** witness: a plain HTTP 500 propagates from both release
endpoints with a single request. -/
theorem C4_http_error_propagation_w :
    resolveSource net500 "latest" = (.error "HTTP 500: boom", [urlLatest]) ∧
    resolveSource net500 "v9" = (.error "HTTP 500: boom", [urlReleaseTag "v9"]) := by
  have h := C4_http_error_propagation net500 "v9" 500 "boom" (by decide) (by decide)
  exact ⟨h.1 rfl, h.2 rfl⟩

/-- **C9**: `run` creates the destination directory tree before
resolution begins (the mkdir event opens the event log), so when
resolution fails the command exits 1, the destination contents are
untouched, and nothing was downloaded. -/
theorem C9_dest_created_before_resolution (net : Net) (dl : Dl)
    (listTree : ListTree) (args : Args) (dest0 : FS) (e : String)
    (calls : List String)
    (h : resolveSource net (effectiveVersion args.version) = (.error e, calls)) :
    (run net dl listTree args dest0).events =
      Ev.mkdirDest :: (calls.map Ev.api ++
        [.print ("[init] 获取下载源失败: " ++ e)]) ∧
    (run net dl listTree args dest0).exit = 1 ∧
    (run net dl listTree args dest0).destFS = dest0 ∧
    ∀ u, Ev.download u ∉ (run net dl listTree args dest0).events := by
  rw [run_resolve_error net dl listTree args dest0 h]
  refine ⟨by simp, rfl, rfl, ?_⟩
  intro u
  simp [List.mem_map]

/-- **C9** witness: complete network failure. -/
theorem C9_dest_created_before_resolution_w :
    (run netOffline dlSample modelListTree ⟨none, ".", false⟩ []).events =
      Ev.mkdirDest :: ([Ev.api urlLatest] ++
        [Ev.print "[init] 获取下载源失败: offline"]) ∧
    (run netOffline dlSample modelListTree ⟨none, ".", false⟩ []).exit = 1 ∧
    (run netOffline dlSample modelListTree ⟨none, ".", false⟩ []).destFS = [] ∧
    ∀ u, Ev.download u ∉
      (run netOffline dlSample modelListTree ⟨none, ".", false⟩ []).events :=
  C9_dest_created_before_resolution netOffline dlSample modelListTree
    ⟨none, ".", false⟩ [] "offline" [urlLatest] rfl

/-- **C10**: when the resolved source descriptor's `zipball_url` is not
truthy (as the "latest tag" / "git tag" paths permit), `run` prints the
descriptive error, exits 1, and neither downloads nor extracts nor
touches the destination contents. -/
theorem C10_missing_zipball_aborts (net : Net) (dl : Dl)
    (listTree : ListTree) (args : Args) (dest0 : FS) (src : Dict)
    (calls : List String)
    (h : resolveSource net (effectiveVersion args.version) = (.ok src, calls))
    (hz : truthyV (dictGet src "zipball_url") = false) :
    (run net dl listTree args dest0).exit = 1 ∧
    (run net dl listTree args dest0).destFS = dest0 ∧
    (run net dl listTree args dest0).events =
      [Ev.mkdirDest] ++ calls.map Ev.api ++
        [.print "[init] 下载源缺少 zipball_url，无法下载源码。"] ∧
    ∀ u, Ev.download u ∉ (run net dl listTree args dest0).events := by
  rw [run_no_zip net dl listTree args dest0 h hz]
  refine ⟨rfl, rfl, rfl, ?_⟩
  intro u
  simp [List.mem_map]

/-- **C10** witness: the latest-tag fallback yields a descriptor whose
`zipball_url` is `None` because the tag item lacks the field. -/
theorem C10_missing_zipball_aborts_w :
    (run netMissingZip dlSample modelListTree ⟨none, ".", false⟩ []).exit = 1 ∧
    (run netMissingZip dlSample modelListTree ⟨none, ".", false⟩ []).destFS = [] ∧
    (run netMissingZip dlSample modelListTree ⟨none, ".", false⟩ []).events =
      [Ev.mkdirDest] ++ [Ev.api urlLatest, Ev.api urlTags1] ++
        [Ev.print "[init] 下载源缺少 zipball_url，无法下载源码。"] ∧
    ∀ u, Ev.download u ∉
      (run netMissingZip dlSample modelListTree ⟨none, ".", false⟩ []).events :=
  C10_missing_zipball_aborts netMissingZip dlSample modelListTree
    ⟨none, ".", false⟩ []
    [("source_type", .str "latest tag"), ("tag_name", .str "v0.9"),
     ("zipball_url", .null)]
    [urlLatest, urlTags1] rfl rfl

/-- **C2**: copying into a destination where some target files already
exist, without force: the walk is never aborted early — every
non-conflicting file is still copied and every conflicting file is
skipped without being overwritten — the recorded conflicts are exactly
the occupied targets, and only after the full walk does the operation
fail, the command exiting 1. -/
theorem C2_conflicts_complete_walk (net : Net) (dl : Dl)
    (listTree : ListTree) (dver : Option String) (dest : String)
    (dest0 : FS) (src : Dict) (calls : List String) (archive : Archive)
    (rootName : String)
    (hres : resolveSource net (effectiveVersion dver) = (.ok src, calls))
    (hzip : truthyV (dictGet src "zipball_url") = true)
    (hdl : dl (pyStr (dictGet src "zipball_url")) = .ok archive)
    (hroot : detectRootFolder archive = .ok rootName)
    (hex : ((extractAll archive).get [rootName]).isSome = true)
    (hWF : entriesWF (listTree (extractAll archive) rootName))
    (hconf : conflictsOf (listTree (extractAll archive) rootName) dest0 ≠ []) :
    (run net dl listTree ⟨dver, dest, false⟩ dest0).exit = 1 ∧
    (copyWalk false (listTree (extractAll archive) rootName) dest0).conflicts =
      conflictsOf (listTree (extractAll archive) rootName) dest0 ∧
    (∀ rel c, Entry.file rel c ∈ listTree (extractAll archive) rootName →
      dest0.get rel = none →
      (run net dl listTree ⟨dver, dest, false⟩ dest0).destFS.get rel =
        some (.file c)) ∧
    (∀ p n, dest0.get p = some n →
      (run net dl listTree ⟨dver, dest, false⟩ dest0).destFS.get p = some n) := by
  have hde : downloadAndExtract dl listTree (pyStr (dictGet src "zipball_url"))
      dest0 false = copyTree false (listTree (extractAll archive) rootName) dest0 :=
    downloadAndExtract_copy dl listTree _ dest0 false hdl hroot hex
  have hwc := copyWalk_conflicts_eq dest0 hWF
  have herr : (downloadAndExtract dl listTree (pyStr (dictGet src "zipball_url"))
      dest0 false).2 = .error (conflictMessage
        (copyWalk false (listTree (extractAll archive) rootName) dest0).conflicts) := by
    rw [hde]
    exact copyTree_snd_error (by rw [hwc]; exact hconf)
  have hrun := run_de_error net dl listTree ⟨dver, dest, false⟩ dest0 hres hzip herr
  refine ⟨hrun.1, hwc, ?_, ?_⟩
  · intro rel c hm hnone
    rw [hrun.2, hde, copyTree_fst]
    exact copyWalk_copied_false _ ⟨dest0, []⟩ hWF hm hnone
  · intro p n hp
    rw [hrun.2, hde, copyTree_fst]
    exact copyWalk_some_false _ ⟨dest0, []⟩ hp

/-- **C2** witness: the sample archive copied over a destination whose
`a.txt` already exists. -/
theorem C2_conflicts_complete_walk_w :
    (run netRelease dlSample modelListTree ⟨none, ".", false⟩ destOneConflict).exit = 1 ∧
    (copyWalk false (modelListTree (extractAll sampleArchive) "projectname-abcdef")
      destOneConflict).conflicts =
      conflictsOf (modelListTree (extractAll sampleArchive) "projectname-abcdef")
        destOneConflict ∧
    (∀ rel c,
      Entry.file rel c ∈ modelListTree (extractAll sampleArchive) "projectname-abcdef" →
      destOneConflict.get rel = none →
      (run netRelease dlSample modelListTree ⟨none, ".", false⟩
        destOneConflict).destFS.get rel = some (.file c)) ∧
    (∀ p n, destOneConflict.get p = some n →
      (run netRelease dlSample modelListTree ⟨none, ".", false⟩
        destOneConflict).destFS.get p = some n) :=
  C2_conflicts_complete_walk netRelease dlSample modelListTree none "."
    destOneConflict srcRelease [urlLatest] sampleArchive "projectname-abcdef"
    rfl rfl rfl rfl rfl (by decide) (by decide)

/-- **C5**: the same scenario — a destination where some target *files*
already exist (no directory sits at a file's target, which `copy2`
would silently copy into rather than overwrite) — with force enabled:
no conflict is recorded, every file entry — the conflicting ones
included — ends up overwritten with the source content, and the command
exits 0. -/
theorem C5_force_overwrites (net : Net) (dl : Dl) (listTree : ListTree)
    (dver : Option String) (dest : String) (dest0 : FS) (src : Dict)
    (calls : List String) (archive : Archive) (rootName : String)
    (hres : resolveSource net (effectiveVersion dver) = (.ok src, calls))
    (hzip : truthyV (dictGet src "zipball_url") = true)
    (hdl : dl (pyStr (dictGet src "zipball_url")) = .ok archive)
    (hroot : detectRootFolder archive = .ok rootName)
    (hex : ((extractAll archive).get [rootName]).isSome = true)
    (hWF : entriesWF (listTree (extractAll archive) rootName))
    (hfiles : noDirCollisions (listTree (extractAll archive) rootName) dest0 = true)
    (_hconf : conflictsOf (listTree (extractAll archive) rootName) dest0 ≠ []) :
    (run net dl listTree ⟨dver, dest, true⟩ dest0).exit = 0 ∧
    (copyWalk true (listTree (extractAll archive) rootName) dest0).conflicts = [] ∧
    (∀ rel c, Entry.file rel c ∈ listTree (extractAll archive) rootName →
      (run net dl listTree ⟨dver, dest, true⟩ dest0).destFS.get rel =
        some (.file c)) := by
  have hde : downloadAndExtract dl listTree (pyStr (dictGet src "zipball_url"))
      dest0 true = copyTree true (listTree (extractAll archive) rootName) dest0 :=
    downloadAndExtract_copy dl listTree _ dest0 true hdl hroot hex
  have hnc : (copyWalk true (listTree (extractAll archive) rootName)
      dest0).conflicts = [] :=
    copyWalk_conflicts_true _ ⟨dest0, []⟩
  have hok : (downloadAndExtract dl listTree (pyStr (dictGet src "zipball_url"))
      dest0 true).2 = .ok () := by
    rw [hde]
    exact copyTree_snd_ok hnc
  have hrun := run_de_ok net dl listTree ⟨dver, dest, true⟩ dest0 hres hzip hok
  refine ⟨hrun.1, hnc, ?_⟩
  intro rel c hm
  rw [hrun.2, hde, copyTree_fst]
  exact copyWalk_copied_true _ ⟨dest0, []⟩ hWF
    (fun rel' c' hm' => noDirCollisions_spec hfiles hm') hm

/-- **C5** witness: the conflicting destination of the C2 scenario,
with force on. -/
theorem C5_force_overwrites_w :
    (run netRelease dlSample modelListTree ⟨none, ".", true⟩ destOneConflict).exit = 0 ∧
    (copyWalk true (modelListTree (extractAll sampleArchive) "projectname-abcdef")
      destOneConflict).conflicts = [] ∧
    (∀ rel c,
      Entry.file rel c ∈ modelListTree (extractAll sampleArchive) "projectname-abcdef" →
      (run netRelease dlSample modelListTree ⟨none, ".", true⟩
        destOneConflict).destFS.get rel = some (.file c)) :=
  C5_force_overwrites netRelease dlSample modelListTree none "."
    destOneConflict srcRelease [urlLatest] sampleArchive "projectname-abcdef"
    rfl rfl rfl rfl rfl (by decide) (by decide) (by decide)

/-- **C6**: copying into a destination with zero pre-existing
conflicting files copies every file (with its exact source content) to
its relative path, records zero conflicts, and the operation does not
fail — whatever `force` is. -/
theorem C6_clean_destination (force : Bool) (l : List Entry) (dest0 : FS)
    (hWF : entriesWF l)
    (hclean : ∀ rel c, Entry.file rel c ∈ l → dest0.get rel = none) :
    conflictsOf l dest0 = [] ∧
    (copyWalk force l dest0).conflicts = [] ∧
    (∀ rel c, Entry.file rel c ∈ l →
      (copyTree force l dest0).1.get rel = some (.file c)) ∧
    (copyTree force l dest0).2 = .ok () := by
  have hnil := conflictsOf_eq_nil hclean
  have hwc : (copyWalk force l dest0).conflicts = [] := by
    cases force with
    | false => rw [copyWalk_conflicts_eq dest0 hWF]; exact hnil
    | true => exact copyWalk_conflicts_true _ ⟨dest0, []⟩
  refine ⟨hnil, hwc, ?_, copyTree_snd_ok hwc⟩
  intro rel c hm
  rw [copyTree_fst]
  exact copyWalk_copied_clean force l dest0 hWF hclean hm

/-- **C6** witness: the sample archive's listing into an empty
destination. -/
theorem C6_clean_destination_w :
    conflictsOf (modelListTree (extractAll sampleArchive) "projectname-abcdef") [] = [] ∧
    (copyWalk false (modelListTree (extractAll sampleArchive) "projectname-abcdef")
      []).conflicts = [] ∧
    (∀ rel c,
      Entry.file rel c ∈ modelListTree (extractAll sampleArchive) "projectname-abcdef" →
      (copyTree false (modelListTree (extractAll sampleArchive) "projectname-abcdef")
        []).1.get rel = some (.file c)) ∧
    (copyTree false (modelListTree (extractAll sampleArchive) "projectname-abcdef")
      []).2 = .ok () :=
  C6_clean_destination false _ [] (by decide) (fun _ _ _ => rfl)

/-- **C7**: when the copy fails due to conflicts, the error message is
the report rendered from at most the first 20 conflicting paths as
examples, together with — exactly when more than 20 conflicts were
recorded — the count of the remaining ones. -/
theorem C7_conflict_report (force : Bool) (l : List Entry) (dest0 : FS)
    (h : (copyWalk force l dest0).conflicts ≠ []) :
    (copyTree force l dest0).2 =
      .error (renderConflictReport
        ((copyWalk force l dest0).conflicts.take 20)
        (if (copyWalk force l dest0).conflicts.length ≤ 20 then none
         else some ((copyWalk force l dest0).conflicts.length - 20))) ∧
    ((copyWalk force l dest0).conflicts.take 20).length ≤ 20 ∧
    ((copyWalk force l dest0).conflicts.length ≤ 20 →
      (copyWalk force l dest0).conflicts.take 20 =
        (copyWalk force l dest0).conflicts) ∧
    (20 < (copyWalk force l dest0).conflicts.length →
      (if (copyWalk force l dest0).conflicts.length ≤ 20 then none
       else some ((copyWalk force l dest0).conflicts.length - 20)) =
        some ((copyWalk force l dest0).conflicts.length - 20)) := by
  refine ⟨?_, ?_, ?_, ?_⟩
  · rw [copyTree_snd_error h, conflictMessage_eq_render]
  · rw [List.length_take]
    exact min_le_left _ _
  · intro hle
    exact List.take_of_length_le hle
  · intro hgt
    rw [if_neg (by omega)]

/-- **C7** witness: 22 conflicting files, so the report shows 20
examples and a remainder of 2. -/
theorem C7_conflict_report_w :
    (copyTree false manyEntries manyDest).2 =
      .error (renderConflictReport
        ((copyWalk false manyEntries manyDest).conflicts.take 20)
        (if (copyWalk false manyEntries manyDest).conflicts.length ≤ 20 then none
         else some ((copyWalk false manyEntries manyDest).conflicts.length - 20))) ∧
    ((copyWalk false manyEntries manyDest).conflicts.take 20).length ≤ 20 ∧
    ((copyWalk false manyEntries manyDest).conflicts.length ≤ 20 →
      (copyWalk false manyEntries manyDest).conflicts.take 20 =
        (copyWalk false manyEntries manyDest).conflicts) ∧
    (20 < (copyWalk false manyEntries manyDest).conflicts.length →
      (if (copyWalk false manyEntries manyDest).conflicts.length ≤ 20 then none
       else some ((copyWalk false manyEntries manyDest).conflicts.length - 20)) =
        some ((copyWalk false manyEntries manyDest).conflicts.length - 20)) :=
  C7_conflict_report false manyEntries manyDest (by decide)

/-- **C8** (counterexample): for the flat archive whose only entry is
the plain file `README`, the detected root is `README` and after
extraction no *directory* of that name exists — only a file — yet the
claim's required failure does not occur: the `exists()` check passes,
the listing below a file is empty, and the call succeeds while copying
nothing. -/
theorem C8_flat_archive_cex :
    detectRootFolder flatArchive = .ok "README" ∧
    (extractAll flatArchive).get ["README"] = some (Node.file "x") ∧
    modelListTree (extractAll flatArchive) "README" = [] ∧
    downloadAndExtract dlFlat modelListTree "url" [] false = ([], .ok ()) :=
  ⟨rfl, rfl, rfl, rfl⟩

/-- **C8** (amended): the root is the top-level component of the first
non-empty, non-metadata entry; an archive with no such entry fails with
"压缩包为空。"; and, through a faithful listing of the extracted tree,
every file below the root folder is copied to its root-*stripped*
relative path in the destination (the wrapper folder itself is not
reproduced).  After extraction the code checks only that *some*
filesystem entry — file or directory — exists at the root name. -/
theorem C8_root_detection_extract (dl : Dl) (listTree : ListTree)
    (zipUrl : String) (dest0 : FS) (force : Bool) (archive : Archive)
    (hdl : dl zipUrl = .ok archive) :
    (validNames archive = [] →
      downloadAndExtract dl listTree zipUrl dest0 force =
        (dest0, .error "压缩包为空。")) ∧
    (∀ n ns, validNames archive = n :: ns →
      detectRootFolder archive = .ok (splitHeadSlash n)) ∧
    (∀ rootName, detectRootFolder archive = .ok rootName →
      ((extractAll archive).get [rootName]).isSome = true →
      goodListing (extractAll archive) rootName
        (listTree (extractAll archive) rootName) →
      (∀ rel c, Entry.file rel c ∈ listTree (extractAll archive) rootName →
        dest0.get rel = none) →
      ∀ rel c, (extractAll archive).get (rootName :: rel) = some (.file c) →
        rel ≠ [] →
        (downloadAndExtract dl listTree zipUrl dest0 force).1.get rel =
          some (.file c)) := by
  refine ⟨?_, ?_, ?_⟩
  · intro hempty
    have hdet : detectRootFolder archive = .error "压缩包为空。" := by
      unfold detectRootFolder
      rw [hempty]
    simp only [downloadAndExtract, downloadFile, hdl, hdet]
  · intro n ns h
    unfold detectRootFolder
    rw [h]
  · intro rootName hroot hex hgl hclean rel c hfile hrelne
    rw [downloadAndExtract_copy dl listTree zipUrl dest0 force hdl hroot hex,
      copyTree_fst]
    obtain ⟨hWF, -, hcomp⟩ := hgl
    have hmem0 : (rootName :: rel, Node.file c) ∈ extractAll archive :=
      FS.get_mem hfile
    have hall := List.all_eq_true.mp hcomp _ hmem0
    have hur : underRoot rootName (rootName :: rel, Node.file c) =
        some (rel, c) := by
      simp [underRoot, hrelne]
    rw [hur] at hall
    simp [hfile] at hall
    exact copyWalk_copied_clean force _ dest0 hWF hclean hall

/-- **C8** witness: the sample archive wrapped in
`projectname-abcdef/`, plus the metadata-only archive for the failure
branch. -/
theorem C8_root_detection_extract_w :
    detectRootFolder sampleArchive = .ok "projectname-abcdef" ∧
    (downloadAndExtract dlSample modelListTree "url" [] false).1.get
      ["docs", "b.txt"] = some (Node.file "B") ∧
    downloadAndExtract dlMac modelListTree "url" [] false =
      ([], .error "压缩包为空。") := by
  have h := C8_root_detection_extract dlSample modelListTree "url" [] false
    sampleArchive rfl
  have hm := C8_root_detection_extract dlMac modelListTree "url" [] false
    macArchive rfl
  refine ⟨?_, ?_, ?_⟩
  · exact h.2.1 "projectname-abcdef/"
      ["projectname-abcdef/a.txt", "projectname-abcdef/docs/",
       "projectname-abcdef/docs/b.txt"] rfl
  · exact h.2.2 "projectname-abcdef" rfl rfl (by decide) (fun _ _ _ => rfl)
      ["docs", "b.txt"] "B" rfl (by decide)
  · exact hm.1 rfl

end LazyFox
